import Mathlib

/-!
Verification of the Spectral Chord Engine (class CodeSymphony).

The engine's functions are shallowly embedded over the real numbers:
JavaScript number arithmetic is idealised as real arithmetic, `Math.log2`
becomes `Real.logb 2`, `Math.pow` becomes `zpow`/`rpow`, `Math.floor` is
`Int.floor`, `Math.round x` is `⌊x + 1/2⌋`, the JavaScript `%` operator is
the truncated modulus, and integer-valued quantities (octaves, semitone
offsets, MIDI numbers, colour channels) are carried in `ℤ`.
-/

namespace CodeSymphony

/-- Chord quality from the source's union type. -/
inductive Quality
  | consonant
  | dissonant
  | neutral
deriving DecidableEq

/-- Verdict of the harmonic comparator `compareHarmony`. -/
inductive MoreConsonant
  | first
  | second
  | equal
deriving DecidableEq

/-- The base tuning constant `BASE_FREQ = 432`. -/
def BASE_FREQ : ℝ := 432

/-- The fixed 12-entry chromatic note-name table `NOTES`. -/
def NOTES : List String :=
  ["C", "C#", "D", "D#", "E", "F"] ++ ["F#", "G", "G#", "A", "A#", "B"]

/-- Truncation toward zero, the rounding used by the JavaScript `%` operator. -/
noncomputable def jsTrunc (x : ℝ) : ℤ := if x < 0 then ⌈x⌉ else ⌊x⌋

/-- The JavaScript remainder `x % y` on numbers: `x - y * trunc (x / y)`. -/
noncomputable def jsMod (x y : ℝ) : ℝ := x - y * (jsTrunc (x / y) : ℝ)

/-- JavaScript `Math.round`: round half toward positive infinity. -/
noncomputable def jsRound (x : ℝ) : ℤ := ⌊x + 1 / 2⌋

/-- The octave shift chosen by `eigenToFrequency`'s four-band dispatch. -/
noncomputable def eigenOctave (l : ℝ) : ℤ :=
  if l < 0.1 then -2
  else if l < 1 then -1
  else if l < 10 then 0
  else ⌊Real.logb 2 (l / 10)⌋ + 1

/-- The semitone offset chosen by `eigenToFrequency`'s four-band dispatch. -/
noncomputable def eigenNoteOffset (l : ℝ) : ℤ :=
  if l < 0.1 then 0
  else if l < 1 then 4
  else if l < 10 then 7
  else jsRound (jsMod l 10 * 1.2)

/-- `eigenToFrequency`: `BASE_FREQ * 2^octave * 2^(noteOffset/12)`. -/
noncomputable def eigenToFrequency (l : ℝ) : ℝ :=
  BASE_FREQ * (2 : ℝ) ^ eigenOctave l * (2 : ℝ) ^ ((eigenNoteOffset l : ℝ) / 12)

/-- `freqToMidi`: `round (69 + 12 * log2 (freq / 432))` (432 Hz tuning). -/
noncomputable def freqToMidi (freq : ℝ) : ℤ := jsRound (69 + 12 * Real.logb 2 (freq / 432))

/-- The pitch-class index computed by `midiToNote`: the JavaScript `midi % 12`,
a truncated modulus. -/
def noteIndexOf (midi : ℤ) : ℤ := Int.tmod midi 12

/-- JavaScript array indexing into `NOTES`: out-of-range indices read as the
string `undefined` inside the template literal. -/
def lookupNote (i : ℤ) : String :=
  if i < 0 then "undefined" else NOTES.getD i.toNat ("undefined")

/-- `midiToNote`: note name from the table, octave `floor (midi / 12) - 1`. -/
def midiToNote (midi : ℤ) : String :=
  lookupNote (noteIndexOf midi) ++ toString (Int.fdiv midi 12 - 1)

/-- The eight canonical consonant interval ratios. -/
def consonantRatios : List ℝ := [1.0, 2.0, 1.5, 1.333, 1.25, 1.2, 1.667, 1.6]

/-- The per-ratio consonance test of `analyzeQuality`'s inner loop: the ratio is
within 0.05 of a table entry or within 0.05 of the reciprocal of a table entry. -/
def consonantCheck (r : ℝ) : Prop :=
  ∃ c ∈ consonantRatios, |r - c| < 0.05 ∨ |r - 1 / c| < 0.05

/-- All pairwise ratios `frequencies[j] / frequencies[i]` for `i < j`, in the
order produced by the nested loops. -/
noncomputable def pairRatios : List ℝ → List ℝ
  | [] => []
  | f :: fs => fs.map (fun g => g / f) ++ pairRatios fs

open Classical in
/-- `consonanceScore`: how many ratios pass the consonance test. -/
noncomputable def scoreOf : List ℝ → ℕ
  | [] => 0
  | r :: rs => (if consonantCheck r then 1 else 0) + scoreOf rs

open Classical in
/-- `analyzeQuality`: tension `1 - score / totalComparisons` and the
threshold classification, with the degenerate short-circuit for fewer than
two frequencies. -/
noncomputable def analyzeQuality (frequencies : List ℝ) : Quality × ℝ :=
  if frequencies.length < 2 then (Quality.neutral, 0)
  else
    let ratios := pairRatios frequencies
    let tension : ℝ := 1 - (scoreOf ratios : ℝ) / (ratios.length : ℝ)
    if tension < 0.3 then (Quality.consonant, tension)
    else if tension > 0.7 then (Quality.dissonant, tension)
    else (Quality.neutral, tension)

/-- The log-normalised position of a frequency between the 27.5 Hz and
4186 Hz anchors, from `freqToColor`. -/
noncomputable def normalizedOf (freq : ℝ) : ℝ :=
  (Real.logb 2 freq - Real.logb 2 27.5) / (Real.logb 2 4186 - Real.logb 2 27.5)

open Classical in
/-- The RGB contribution of one frequency, by thirds of the normalised position. -/
noncomputable def contribOf (n : ℝ) : ℝ × ℝ × ℝ :=
  if n < 0.33 then (255 * (1 - n * 3), 255 * (n * 3), 0)
  else if n < 0.67 then (0, 255 * (1 - (n - 0.33) * 3), 255 * ((n - 0.33) * 3))
  else (0, 0, 255)

/-- The summed RGB contributions of a frequency list. -/
noncomputable def sumRGB : List ℝ → ℝ × ℝ × ℝ
  | [] => (0, 0, 0)
  | f :: fs =>
    let c := contribOf (normalizedOf f)
    let s := sumRGB fs
    (c.1 + s.1, c.2.1 + s.2.1, c.2.2 + s.2.2)

/-- One colour channel: average, round, then clamp from above at 255
(`Math.min (255, Math.round (sum / count))`). -/
noncomputable def channelOf (sum : ℝ) (count : ℕ) : ℤ := min 255 (jsRound (sum / (count : ℝ)))

/-- The red channel of `freqToColor`. -/
noncomputable def redChannel (fs : List ℝ) : ℤ := channelOf (sumRGB fs).1 fs.length

/-- The green channel of `freqToColor`. -/
noncomputable def greenChannel (fs : List ℝ) : ℤ := channelOf (sumRGB fs).2.1 fs.length

/-- The blue channel of `freqToColor`. -/
noncomputable def blueChannel (fs : List ℝ) : ℤ := channelOf (sumRGB fs).2.2 fs.length

/-- Hexadecimal digits of a natural number, most significant first, as produced
by JavaScript `toString(16)`. -/
def natHexDigits (n : ℕ) : List Char :=
  if _h : n < 16 then [Nat.digitChar n]
  else natHexDigits (n / 16) ++ [Nat.digitChar (n % 16)]
decreasing_by
  exact Nat.div_lt_self (by omega) (by omega)

/-- JavaScript `toString(16)` on an integer: a minus sign before the digits of
the absolute value when negative. -/
def intToHexStr (n : ℤ) : String :=
  if n < 0 then "-" ++ String.mk (natHexDigits n.natAbs)
  else String.mk (natHexDigits n.toNat)

/-- JavaScript `padStart(2, ...)` with the zero character. -/
def padTwo (s : String) : String :=
  if s.length < 2 then String.mk (List.replicate (2 - s.length) '0' ++ s.data) else s

/-- `freqToColor`: the hash-prefixed concatenation of the three channel bytes,
with the black sentinel for an empty list. -/
noncomputable def freqToColor (frequencies : List ℝ) : String :=
  if frequencies.length = 0 then "#000000"
  else
    "#" ++ padTwo (intToHexStr (redChannel frequencies))
      ++ padTwo (intToHexStr (greenChannel frequencies))
      ++ padTwo (intToHexStr (blueChannel frequencies))

/-- The engine's output record `SoulChord`. -/
structure SoulChord where
  frequencies : List ℝ
  notes : List String
  midi : List ℤ
  quality : Quality
  tension : ℝ
  color : String

/-- `codeToChord` after the external eigenvalue extraction: the pure pipeline
from the eigenvalue spectrum to the `SoulChord`. -/
noncomputable def chordFromEigen (eigenTop : List ℝ) : SoulChord :=
  let frequencies := eigenTop.map eigenToFrequency
  let midi := frequencies.map freqToMidi
  let notes := midi.map midiToNote
  let qt := analyzeQuality frequencies
  { frequencies := frequencies, notes := notes, midi := midi,
    quality := qt.1, tension := qt.2, color := freqToColor frequencies }

/-- The record returned by `compareHarmony`. -/
structure ComparisonResult where
  chord1 : SoulChord
  chord2 : SoulChord
  harmonicDistance : ℝ
  moreConsonant : MoreConsonant

open Classical in
/-- `compareHarmony` after the two chords are built: the harmonic distance and
the tolerance-based verdict. -/
noncomputable def compareChords (chord1 chord2 : SoulChord) : ComparisonResult :=
  { chord1 := chord1, chord2 := chord2,
    harmonicDistance := |chord1.tension - chord2.tension|,
    moreConsonant :=
      if chord1.tension < chord2.tension - 0.05 then MoreConsonant.first
      else if chord2.tension < chord1.tension - 0.05 then MoreConsonant.second
      else MoreConsonant.equal }

/-- Modelled from the spec: the consonance test as the specification words it,
comparing the ratio or its reciprocal against the table entries themselves. -/
def specConsonantCheck (r : ℝ) : Prop :=
  ∃ c ∈ consonantRatios, |r - c| < 0.05 ∨ |1 / r - c| < 0.05

/-- The hexadecimal digit characters produced by JavaScript `toString(16)`. -/
def hexDigitChars : List Char :=
  ['0', '1', '2', '3', '4', '5', '6', '7'] ++ ['8', '9', 'a', 'b', 'c', 'd', 'e', 'f']

/-- A well-formed colour string: a hash sign followed by exactly six hex digits. -/
def wellFormedColor (s : String) : Prop :=
  ∃ cs : List Char, s.data = '#' :: cs ∧ cs.length = 6 ∧ ∀ c ∈ cs, c ∈ hexDigitChars

/-! ### Lemmas about the harmony analyzer -/

open Classical in
theorem analyzeQuality_pair (f1 f2 : ℝ) :
    analyzeQuality [f1, f2] =
      if consonantCheck (f2 / f1) then (Quality.consonant, 0) else (Quality.dissonant, 1) := by
  have hratios : pairRatios [f1, f2] = [f2 / f1] := by simp [pairRatios]
  by_cases hc : consonantCheck (f2 / f1)
  · have hs : scoreOf [f2 / f1] = 1 := by rw [scoreOf, scoreOf, if_pos hc]
    rw [if_pos hc]
    simp only [analyzeQuality, hratios, hs, List.length_cons, List.length_nil]
    norm_num
  · have hs : scoreOf [f2 / f1] = 0 := by rw [scoreOf, scoreOf, if_neg hc]
    rw [if_neg hc]
    simp only [analyzeQuality, hratios, hs, List.length_cons, List.length_nil]
    norm_num

theorem consonantCheck_ratio_054 : consonantCheck ((54 : ℝ) / 100) :=
  ⟨2, by norm_num [consonantRatios], Or.inr (by rw [abs_lt]; norm_num)⟩

theorem not_consonantCheck_ratio_10054 : ¬ consonantCheck ((100 : ℝ) / 54) := by
  rintro ⟨c, hc, hlt⟩
  simp only [consonantRatios, List.mem_cons, List.not_mem_nil, or_false] at hc
  rcases hc with rfl | rfl | rfl | rfl | rfl | rfl | rfl | rfl <;>
    rcases hlt with h | h <;> rw [abs_lt] at h <;> norm_num at h

theorem not_specConsonantCheck_ratio_054 : ¬ specConsonantCheck ((54 : ℝ) / 100) := by
  rintro ⟨c, hc, hlt⟩
  simp only [consonantRatios, List.mem_cons, List.not_mem_nil, or_false] at hc
  rcases hc with rfl | rfl | rfl | rfl | rfl | rfl | rfl | rfl <;>
    rcases hlt with h | h <;> rw [abs_lt] at h <;> norm_num at h

theorem analyzeQuality_eval_100_54 : analyzeQuality [(100 : ℝ), 54] = (Quality.consonant, 0) := by
  rw [analyzeQuality_pair, if_pos consonantCheck_ratio_054]

theorem analyzeQuality_eval_54_100 : analyzeQuality [(54 : ℝ), 100] = (Quality.dissonant, 1) := by
  rw [analyzeQuality_pair, if_neg not_consonantCheck_ratio_10054]

theorem pairRatios_length (fs : List ℝ) :
    (pairRatios fs).length = fs.length * (fs.length - 1) / 2 := by
  induction fs with
  | nil => simp [pairRatios]
  | cons f fs ih =>
    simp only [pairRatios, List.length_append, List.length_map, List.length_cons, ih]
    cases hn : fs.length with
    | zero => simp
    | succ m =>
      have h3 : (m + 1) * (m + 1 - 1) = (m + 1) * m := rfl
      have h2 : (m + 1 + 1) * (m + 1 + 1 - 1) = (m + 1) * m + 2 * (m + 1) := by
        show (m + 1 + 1) * (m + 1) = (m + 1) * m + 2 * (m + 1)
        ring
      rw [h3, h2, Nat.add_mul_div_left _ _ (by norm_num : (0 : ℕ) < 2)]
      exact Nat.add_comm _ _

/-- C1: for at least two frequencies the analyzer sets
tension to one minus the consonant-pair count over the total pair count
(which equals n(n-1)/2), classifies with the 0.3 and 0.7 thresholds, returns
neutral with tension 0 for fewer than two frequencies, and — as amended — a
pair counts as consonant when its ratio is within absolute tolerance 0.05 of a
table entry or of the reciprocal of a table entry (not when the ratio's own
reciprocal is near a table entry, which is what the original claim said). -/
theorem analyzeQuality_spec (freqs : List ℝ) :
    (freqs.length < 2 → analyzeQuality freqs = (Quality.neutral, 0)) ∧
    (2 ≤ freqs.length →
      (analyzeQuality freqs).2 =
        1 - (scoreOf (pairRatios freqs) : ℝ) /
          ((freqs.length * (freqs.length - 1) / 2 : ℕ) : ℝ) ∧
      ((analyzeQuality freqs).1 = Quality.consonant ↔ (analyzeQuality freqs).2 < 0.3) ∧
      ((analyzeQuality freqs).1 = Quality.dissonant ↔ 0.7 < (analyzeQuality freqs).2) ∧
      ((analyzeQuality freqs).1 = Quality.neutral ↔
        0.3 ≤ (analyzeQuality freqs).2 ∧ (analyzeQuality freqs).2 ≤ 0.7)) ∧
    (∀ r : ℝ, consonantCheck r ↔
      ∃ c ∈ consonantRatios, |r - c| < 0.05 ∨ |r - 1 / c| < 0.05) := by
  refine ⟨fun h => by rw [analyzeQuality, if_pos h], fun h => ?_, fun r => Iff.rfl⟩
  have hlen : ¬ freqs.length < 2 := by omega
  rw [← pairRatios_length]
  simp only [analyzeQuality]
  rw [if_neg hlen]
  set t : ℝ := 1 - (scoreOf (pairRatios freqs) : ℝ) / ((pairRatios freqs).length : ℝ) with ht
  by_cases h1 : t < 0.3
  · rw [if_pos h1]
    refine ⟨rfl, ?_, ?_, ?_⟩
    · exact ⟨fun _ => h1, fun _ => rfl⟩
    · exact iff_of_false (by simp) (fun h2 => by linarith)
    · exact iff_of_false (by simp) (by rintro ⟨h2, _⟩; linarith)
  · by_cases h2 : (0.7 : ℝ) < t
    · rw [if_neg h1, if_pos h2]
      refine ⟨rfl, ?_, ?_, ?_⟩
      · exact iff_of_false (by simp) h1
      · exact ⟨fun _ => h2, fun _ => rfl⟩
      · exact iff_of_false (by simp) (by rintro ⟨_, h3⟩; linarith)
    · rw [if_neg h1, if_neg h2]
      exact ⟨rfl, iff_of_false (by simp) h1, iff_of_false (by simp) h2,
        iff_of_true rfl ⟨le_of_not_lt h1, le_of_not_lt h2⟩⟩

theorem analyzeQuality_spec_witness : analyzeQuality ([] : List ℝ) = (Quality.neutral, 0) :=
  (analyzeQuality_spec []).1 (by simp)

/-- C1: counterexample to the claim as stated — for the frequency pair
(100, 54) the code counts the pair consonant (ratio 0.54 is within 0.05 of
the reciprocal 1/2 of the table entry 2.0) and returns tension 0, yet neither
the ratio 0.54 nor its reciprocal 100/54 is within 0.05 of any of the eight
table entries, so the claimed rule predicts tension 1 and quality dissonant. -/
theorem analyzeQuality_claim_counterexample :
    analyzeQuality [(100 : ℝ), 54] = (Quality.consonant, 0) ∧
      ¬ specConsonantCheck ((54 : ℝ) / 100) ∧ consonantCheck ((54 : ℝ) / 100) :=
  ⟨analyzeQuality_eval_100_54, not_specConsonantCheck_ratio_054, consonantCheck_ratio_054⟩

/-- C2: counterexample — swapping the two frequencies changes the analyzer's
output: [100, 54] yields (consonant, 0) while [54, 100] yields (dissonant, 1),
because the code compares the ratio against entries and entry reciprocals,
a test that is not invariant under inverting the ratio. -/
theorem analyzeQuality_swap_counterexample :
    analyzeQuality [(100 : ℝ), 54] = (Quality.consonant, 0) ∧
      analyzeQuality [(54 : ℝ), 100] = (Quality.dissonant, 1) :=
  ⟨analyzeQuality_eval_100_54, analyzeQuality_eval_54_100⟩

/-- C2 (amended): the analyzer gives identical results on [f1, f2] and
[f2, f1] whenever the consonance test agrees on the ratio and its reciprocal;
in general the test is not symmetric and neither is the analyzer. -/
theorem analyzeQuality_swap (f1 f2 : ℝ)
    (h : consonantCheck (f2 / f1) ↔ consonantCheck (f1 / f2)) :
    analyzeQuality [f1, f2] = analyzeQuality [f2, f1] := by
  rw [analyzeQuality_pair, analyzeQuality_pair]
  by_cases hc : consonantCheck (f2 / f1)
  · rw [if_pos hc, if_pos (h.mp hc)]
  · rw [if_neg hc, if_neg (fun hx => hc (h.mpr hx))]

theorem analyzeQuality_swap_witness :
    analyzeQuality [(432 : ℝ), 864] = analyzeQuality [(864 : ℝ), 432] :=
  analyzeQuality_swap 432 864
    (iff_of_true ⟨2, by norm_num [consonantRatios], Or.inl (by rw [abs_lt]; norm_num)⟩
      ⟨2, by norm_num [consonantRatios], Or.inr (by rw [abs_lt]; norm_num)⟩)

/-! ### Lemmas about the frequency mapper -/

theorem logb_two_zpow (k : ℤ) : Real.logb 2 ((2 : ℝ) ^ k) = k := by
  rw [← Real.rpow_intCast 2 k, Real.logb_rpow (by norm_num) (by norm_num)]

theorem floor_logb_two (x : ℝ) (k : ℤ) (h1 : (2 : ℝ) ^ k ≤ x) (h2 : x < (2 : ℝ) ^ (k + 1)) :
    ⌊Real.logb 2 x⌋ = k := by
  have hx : 0 < x := lt_of_lt_of_le (zpow_pos (by norm_num) k) h1
  refine Int.floor_eq_iff.mpr ⟨?_, ?_⟩
  · calc (k : ℝ) = Real.logb 2 ((2 : ℝ) ^ k) := (logb_two_zpow k).symm
    _ ≤ Real.logb 2 x :=
      Real.logb_le_logb_of_le (by norm_num) (zpow_pos (by norm_num) k) h1
  · calc Real.logb 2 x < Real.logb 2 ((2 : ℝ) ^ (k + 1)) :=
      Real.logb_lt_logb (by norm_num) hx h2
    _ = ((k + 1 : ℤ) : ℝ) := logb_two_zpow (k + 1)
    _ = (k : ℝ) + 1 := by push_cast; ring

/-- The frequency is `432 * 2 ^ (totalSemitones / 12)` where `totalSemitones`
is `12 * octave + noteOffset`. -/
theorem eigenToFrequency_eq (l : ℝ) :
    eigenToFrequency l =
      432 * (2 : ℝ) ^ (((12 * eigenOctave l + eigenNoteOffset l : ℤ) : ℝ) / 12) := by
  have h : ((12 * eigenOctave l + eigenNoteOffset l : ℤ) : ℝ) / 12 =
      (eigenOctave l : ℝ) + (eigenNoteOffset l : ℝ) / 12 := by
    push_cast
    ring
  rw [h, Real.rpow_add (by norm_num : (0 : ℝ) < 2), Real.rpow_intCast 2 (eigenOctave l),
    ← mul_assoc, eigenToFrequency, BASE_FREQ]

/-- `freqToMidi` inverts the semitone exponent exactly on pipeline frequencies. -/
theorem freqToMidi_tsem (k : ℤ) : freqToMidi (432 * (2 : ℝ) ^ ((k : ℝ) / 12)) = 69 + k := by
  rw [freqToMidi]
  have h1 : 432 * (2 : ℝ) ^ ((k : ℝ) / 12) / 432 = (2 : ℝ) ^ ((k : ℝ) / 12) := by
    field_simp
  rw [h1, Real.logb_rpow (by norm_num) (by norm_num)]
  have h2 : (69 : ℝ) + 12 * ((k : ℝ) / 12) = ((69 + k : ℤ) : ℝ) := by push_cast; ring
  rw [h2, jsRound]
  exact Int.floor_eq_iff.mpr ⟨by push_cast; linarith, by push_cast; linarith⟩

theorem eigenNoteOffset_eval_199 : eigenNoteOffset (19.9 : ℝ) = 12 := by
  rw [eigenNoteOffset, if_neg (by norm_num), if_neg (by norm_num), if_neg (by norm_num)]
  have ht : jsTrunc ((19.9 : ℝ) / 10) = 1 := by
    rw [jsTrunc, if_neg (by norm_num)]
    exact Int.floor_eq_iff.mpr (by norm_num)
  have hm : jsMod (19.9 : ℝ) 10 = 9.9 := by rw [jsMod, ht]; norm_num
  rw [hm, jsRound]
  exact Int.floor_eq_iff.mpr (by norm_num)

theorem eigenToFrequency_eval_199 : eigenToFrequency (19.9 : ℝ) = 1728 := by
  have ho : eigenOctave (19.9 : ℝ) = 1 := by
    rw [eigenOctave, if_neg (by norm_num), if_neg (by norm_num), if_neg (by norm_num)]
    rw [floor_logb_two ((19.9 : ℝ) / 10) 0 (by norm_num) (by norm_num)]
    norm_num
  rw [eigenToFrequency_eq, ho, eigenNoteOffset_eval_199]
  rw [show ((12 * 1 + 12 : ℤ) : ℝ) / 12 = ((2 : ℕ) : ℝ) by norm_num]
  rw [Real.rpow_natCast]
  norm_num

theorem eigenToFrequency_eval_299 : eigenToFrequency (29.9 : ℝ) = 3456 := by
  have ho : eigenOctave (29.9 : ℝ) = 2 := by
    rw [eigenOctave, if_neg (by norm_num), if_neg (by norm_num), if_neg (by norm_num)]
    rw [floor_logb_two ((29.9 : ℝ) / 10) 1 (by norm_num) (by norm_num)]
    norm_num
  have hs : eigenNoteOffset (29.9 : ℝ) = 12 := by
    rw [eigenNoteOffset, if_neg (by norm_num), if_neg (by norm_num), if_neg (by norm_num)]
    have ht : jsTrunc ((29.9 : ℝ) / 10) = 2 := by
      rw [jsTrunc, if_neg (by norm_num)]
      exact Int.floor_eq_iff.mpr (by norm_num)
    have hm : jsMod (29.9 : ℝ) 10 = 9.9 := by rw [jsMod, ht]; norm_num
    rw [hm, jsRound]
    exact Int.floor_eq_iff.mpr (by norm_num)
  rw [eigenToFrequency_eq, ho, hs]
  rw [show ((12 * 2 + 12 : ℤ) : ℝ) / 12 = ((3 : ℕ) : ℝ) by norm_num]
  rw [Real.rpow_natCast]
  norm_num

theorem eigenToFrequency_eval_30 : eigenToFrequency (30 : ℝ) = 1728 := by
  have ho : eigenOctave (30 : ℝ) = 2 := by
    rw [eigenOctave, if_neg (by norm_num), if_neg (by norm_num), if_neg (by norm_num)]
    rw [floor_logb_two ((30 : ℝ) / 10) 1 (by norm_num) (by norm_num)]
    norm_num
  have hs : eigenNoteOffset (30 : ℝ) = 0 := by
    rw [eigenNoteOffset, if_neg (by norm_num), if_neg (by norm_num), if_neg (by norm_num)]
    have ht : jsTrunc ((30 : ℝ) / 10) = 3 := by
      rw [jsTrunc, if_neg (by norm_num)]
      exact Int.floor_eq_iff.mpr (by norm_num)
    have hm : jsMod (30 : ℝ) 10 = 0 := by rw [jsMod, ht]; norm_num
    rw [hm, jsRound]
    exact Int.floor_eq_iff.mpr (by norm_num)
  rw [eigenToFrequency_eq, ho, hs]
  rw [show ((12 * 2 + 0 : ℤ) : ℝ) / 12 = ((2 : ℕ) : ℝ) by norm_num]
  rw [Real.rpow_natCast]
  norm_num

theorem eigenToFrequency_eval_neg5 : eigenToFrequency (-5 : ℝ) = 108 := by
  have ho : eigenOctave (-5 : ℝ) = -2 := by rw [eigenOctave, if_pos (by norm_num)]
  have hs : eigenNoteOffset (-5 : ℝ) = 0 := by rw [eigenNoteOffset, if_pos (by norm_num)]
  rw [eigenToFrequency_eq, ho, hs]
  rw [show ((12 * -2 + 0 : ℤ) : ℝ) / 12 = ((-2 : ℤ) : ℝ) by norm_num]
  rw [Real.rpow_intCast]
  norm_num

/-- C3: counterexample — at the top-band eigenvalue 19.9 the computed semitone
offset is round(9.9 * 1.2) = 12, and no modulo is applied: the offset actually
used in the frequency formula is 12, outside the claimed range 0..11 (432 * 2^1
* 2^(12/12) = 1728). -/
theorem eigenNoteOffset_no_mod_counterexample :
    (10 : ℝ) ≤ 19.9 ∧ eigenNoteOffset (19.9 : ℝ) = 12 ∧
      ¬ eigenNoteOffset (19.9 : ℝ) ≤ 11 ∧ eigenToFrequency (19.9 : ℝ) = 1728 :=
  ⟨by norm_num, eigenNoteOffset_eval_199,
    by rw [eigenNoteOffset_eval_199]; norm_num, eigenToFrequency_eval_199⟩

theorem jsMod_ten_bounds (l : ℝ) (h : 10 ≤ l) : 0 ≤ jsMod l 10 ∧ jsMod l 10 < 10 := by
  have hdiv : (0 : ℝ) ≤ l / 10 := by positivity
  rw [jsMod, jsTrunc, if_neg (not_lt.mpr hdiv)]
  have hfl : ((⌊l / 10⌋ : ℤ) : ℝ) ≤ l / 10 := Int.floor_le (l / 10)
  have hfu : l / 10 - 1 < ((⌊l / 10⌋ : ℤ) : ℝ) := Int.sub_one_lt_floor (l / 10)
  constructor
  · nlinarith
  · nlinarith

/-- C3 (amended): `eigenToFrequency` applies no modulo to the top-band offset;
for every eigenvalue of at least 10 the offset round((l mod 10) * 1.2) lies
between 0 and 12 inclusive — it can exceed 11 (it reaches 12), but never 13. -/
theorem eigenNoteOffset_top_band_bounds (l : ℝ) (h : 10 ≤ l) :
    0 ≤ eigenNoteOffset l ∧ eigenNoteOffset l ≤ 12 := by
  obtain ⟨hm0, hm1⟩ := jsMod_ten_bounds l h
  rw [eigenNoteOffset, if_neg (by linarith : ¬ l < 0.1), if_neg (by linarith : ¬ l < 1),
    if_neg (by linarith : ¬ l < 10), jsRound]
  constructor
  · exact Int.floor_nonneg.mpr (by nlinarith)
  · have : ⌊jsMod l 10 * 1.2 + 1 / 2⌋ < 13 := Int.floor_lt.mpr (by push_cast; nlinarith)
    omega

theorem eigenNoteOffset_top_band_bounds_witness :
    0 ≤ eigenNoteOffset (10 : ℝ) ∧ eigenNoteOffset (10 : ℝ) ≤ 12 :=
  eigenNoteOffset_top_band_bounds 10 (by norm_num)

/-- C4: counterexample — 29.9 and 30 both lie in the top band [10, ∞) and
29.9 < 30, yet the mapped frequency falls from 3456 Hz to 1728 Hz, because at
30 the octave stays 2 while the semitone offset resets from 12 to 0. -/
theorem eigenToFrequency_monotone_counterexample :
    (10 : ℝ) ≤ 29.9 ∧ (10 : ℝ) ≤ 30 ∧ (29.9 : ℝ) < 30 ∧
      eigenToFrequency (30 : ℝ) < eigenToFrequency (29.9 : ℝ) := by
  refine ⟨by norm_num, by norm_num, by norm_num, ?_⟩
  rw [eigenToFrequency_eval_30, eigenToFrequency_eval_299]
  norm_num

/-- C4 (amended): within each of the three bounded bands ([0, 0.1), [0.1, 1)
and [1, 10)) the octave and offset are constant, so the mapped frequency is
(weakly) monotone there; monotonicity fails inside the unbounded top band. -/
theorem eigenToFrequency_monotone_lower_bands (l1 l2 : ℝ) (h12 : l1 < l2)
    (hband : (l1 < 0.1 ∧ l2 < 0.1) ∨ (0.1 ≤ l1 ∧ l1 < 1 ∧ 0.1 ≤ l2 ∧ l2 < 1) ∨
      (1 ≤ l1 ∧ l1 < 10 ∧ 1 ≤ l2 ∧ l2 < 10)) :
    eigenToFrequency l1 ≤ eigenToFrequency l2 := by
  have key : eigenOctave l1 = eigenOctave l2 ∧ eigenNoteOffset l1 = eigenNoteOffset l2 := by
    rcases hband with ⟨h1, h2⟩ | ⟨h1, h2, h3, h4⟩ | ⟨h1, h2, h3, h4⟩
    · rw [eigenOctave, eigenOctave, if_pos h1, if_pos h2,
        eigenNoteOffset, eigenNoteOffset, if_pos h1, if_pos h2]
      exact ⟨rfl, rfl⟩
    · rw [eigenOctave, eigenOctave, if_neg (not_lt.mpr h1), if_neg (not_lt.mpr h3),
        if_pos h2, if_pos h4,
        eigenNoteOffset, eigenNoteOffset, if_neg (not_lt.mpr h1), if_neg (not_lt.mpr h3),
        if_pos h2, if_pos h4]
      exact ⟨rfl, rfl⟩
    · rw [eigenOctave, eigenOctave, if_neg (by linarith : ¬ l1 < 0.1),
        if_neg (by linarith : ¬ l2 < 0.1), if_neg (not_lt.mpr h1), if_neg (not_lt.mpr h3),
        if_pos h2, if_pos h4,
        eigenNoteOffset, eigenNoteOffset, if_neg (by linarith : ¬ l1 < 0.1),
        if_neg (by linarith : ¬ l2 < 0.1), if_neg (not_lt.mpr h1), if_neg (not_lt.mpr h3),
        if_pos h2, if_pos h4]
      exact ⟨rfl, rfl⟩
  rw [eigenToFrequency, eigenToFrequency, key.1, key.2]

theorem eigenToFrequency_monotone_lower_bands_witness :
    eigenToFrequency (1 : ℝ) ≤ eigenToFrequency (2 : ℝ) :=
  eigenToFrequency_monotone_lower_bands 1 2 (by norm_num) (Or.inr (Or.inr (by norm_num)))

/-- C5: evaluation at the failing input — `codeToChord`'s pipeline performs no
validation of the eigenvalue spectrum: the negative eigenvalue -5 is not
rejected but silently coerced through the sub-bass branch, and a SoulChord is
produced whose only frequency is 108 Hz. -/
theorem chordFromEigen_accepts_negative :
    (chordFromEigen [(-5 : ℝ)]).frequencies = [108] := by
  simp [chordFromEigen, eigenToFrequency_eval_neg5]

/-! ### The pitch namer, comparator, assembly and safety results -/

/-- C6: evaluation at the failing input — for the negative MIDI number -1 the
code's truncating modulo yields the out-of-range index -1, the table lookup
misses (reading as the string undefined), and the result is "undefined-2"
rather than a well-formed note name; the claimed floor modulo would instead
give index 11. The octave part floor(-1/12) - 1 = -2 does follow the claim. -/
theorem midiToNote_negative_counterexample :
    noteIndexOf (-1) = -1 ∧ ¬ (0 ≤ noteIndexOf (-1)) ∧
      midiToNote (-1) = "undefined-2" := by
  refine ⟨by decide, by decide, ?_⟩
  decide

/-- C8: the comparator returns the absolute tension difference as the harmonic
distance, answers first exactly when tension1 < tension2 - 0.05, second exactly
when tension2 < tension1 - 0.05, and equal otherwise; tensions 0.40 and 0.43
compare as equal and 0.30 versus 0.80 compares as first. -/
theorem compareChords_spec :
    (∀ c1 c2 : SoulChord,
      (compareChords c1 c2).harmonicDistance = |c1.tension - c2.tension| ∧
      ((compareChords c1 c2).moreConsonant = MoreConsonant.first ↔
        c1.tension < c2.tension - 0.05) ∧
      ((compareChords c1 c2).moreConsonant = MoreConsonant.second ↔
        c2.tension < c1.tension - 0.05) ∧
      ((compareChords c1 c2).moreConsonant = MoreConsonant.equal ↔
        ¬ c1.tension < c2.tension - 0.05 ∧ ¬ c2.tension < c1.tension - 0.05)) ∧
    (compareChords ⟨[], [], [], Quality.neutral, 0.40, ""⟩
        ⟨[], [], [], Quality.neutral, 0.43, ""⟩).moreConsonant = MoreConsonant.equal ∧
    (compareChords ⟨[], [], [], Quality.neutral, 0.30, ""⟩
        ⟨[], [], [], Quality.neutral, 0.80, ""⟩).moreConsonant = MoreConsonant.first := by
  refine ⟨fun c1 c2 => ?_, ?_, ?_⟩
  · refine ⟨rfl, ?_, ?_, ?_⟩ <;>
    · by_cases h1 : c1.tension < c2.tension - 0.05 <;>
        by_cases h2 : c2.tension < c1.tension - 0.05 <;>
          simp [compareChords, h1, h2] <;>
            linarith
  · norm_num [compareChords]
  · norm_num [compareChords]

/-- C9: the chord built from an eigenvalue spectrum has frequency, note and
MIDI lists of exactly the input length, and they are aligned position by
position: the i-th frequency comes from the i-th eigenvalue, the i-th MIDI
number from the i-th frequency, and the i-th note name from the i-th MIDI
number. -/
theorem chordFromEigen_length_alignment (ls : List ℝ) :
    (chordFromEigen ls).frequencies.length = ls.length ∧
    (chordFromEigen ls).notes.length = ls.length ∧
    (chordFromEigen ls).midi.length = ls.length ∧
    ∀ i : ℕ,
      (chordFromEigen ls).frequencies[i]? = (ls[i]?).map eigenToFrequency ∧
      (chordFromEigen ls).midi[i]? =
        ((chordFromEigen ls).frequencies[i]?).map freqToMidi ∧
      (chordFromEigen ls).notes[i]? = ((chordFromEigen ls).midi[i]?).map midiToNote := by
  refine ⟨?_, ?_, ?_, fun i => ⟨?_, ?_, ?_⟩⟩ <;> simp [chordFromEigen]

theorem tsem_lower_bound (l : ℝ) : -24 ≤ 12 * eigenOctave l + eigenNoteOffset l := by
  rcases lt_or_le l 0.1 with h1 | h1
  · rw [eigenOctave, eigenNoteOffset, if_pos h1, if_pos h1]
    norm_num
  · rcases lt_or_le l 1 with h2 | h2
    · rw [eigenOctave, eigenNoteOffset, if_neg (not_lt.mpr h1), if_neg (not_lt.mpr h1),
        if_pos h2, if_pos h2]
      norm_num
    · rcases lt_or_le l 10 with h3 | h3
      · rw [eigenOctave, eigenNoteOffset, if_neg (not_lt.mpr h1), if_neg (not_lt.mpr h1),
          if_neg (not_lt.mpr h2), if_neg (not_lt.mpr h2), if_pos h3, if_pos h3]
        norm_num
      · have ho : 1 ≤ eigenOctave l := by
          rw [eigenOctave, if_neg (not_lt.mpr h1), if_neg (not_lt.mpr h2),
            if_neg (not_lt.mpr h3)]
          have hfl : (0 : ℤ) ≤ ⌊Real.logb 2 (l / 10)⌋ :=
            Int.floor_nonneg.mpr (Real.logb_nonneg (by norm_num) (by linarith))
          omega
        have hs := (eigenNoteOffset_top_band_bounds l h3).1
        omega

theorem freqToMidi_eigen (l : ℝ) :
    freqToMidi (eigenToFrequency l) = 69 + (12 * eigenOctave l + eigenNoteOffset l) := by
  rw [eigenToFrequency_eq]
  exact freqToMidi_tsem _

theorem eigenToFrequency_lower_bound (l : ℝ) : 108 ≤ eigenToFrequency l := by
  rw [eigenToFrequency_eq]
  have h0 : ((-24 : ℤ) : ℝ) ≤ ((12 * eigenOctave l + eigenNoteOffset l : ℤ) : ℝ) := by
    exact_mod_cast tsem_lower_bound l
  have h1 : ((-24 : ℤ) : ℝ) / 12 ≤ ((12 * eigenOctave l + eigenNoteOffset l : ℤ) : ℝ) / 12 := by
    push_cast at h0 ⊢
    linarith
  have h2 : (2 : ℝ) ^ (((-24 : ℤ) : ℝ) / 12) ≤
      (2 : ℝ) ^ (((12 * eigenOctave l + eigenNoteOffset l : ℤ) : ℝ) / 12) :=
    (Real.rpow_le_rpow_left_iff (by norm_num)).mpr h1
  have h3 : (2 : ℝ) ^ (((-24 : ℤ) : ℝ) / 12) = 1 / 4 := by
    rw [show ((-24 : ℤ) : ℝ) / 12 = ((-2 : ℤ) : ℝ) by norm_num, Real.rpow_intCast]
    norm_num
  rw [h3] at h2
  linarith

theorem noteIndexOf_bounds (m : ℤ) (h : 0 ≤ m) :
    0 ≤ noteIndexOf m ∧ noteIndexOf m < 12 :=
  ⟨Int.tmod_nonneg _ h, Int.tmod_lt_of_pos m (by norm_num)⟩

/-- C10: every real eigenvalue maps to a frequency of at least 432/4 = 108 Hz
(in particular strictly positive); composing with freqToMidi, every pipeline
MIDI number is at least 45, hence non-negative, so the chromatic-table index
used by midiToNote is within 0..11 for every chord built by the pipeline. -/
theorem pipeline_midi_safe :
    (∀ l : ℝ, 108 ≤ eigenToFrequency l ∧ 0 < eigenToFrequency l ∧
      45 ≤ freqToMidi (eigenToFrequency l) ∧
      0 ≤ noteIndexOf (freqToMidi (eigenToFrequency l)) ∧
      noteIndexOf (freqToMidi (eigenToFrequency l)) < 12) ∧
    ∀ ls : List ℝ, ∀ m ∈ (chordFromEigen ls).midi,
      45 ≤ m ∧ 0 ≤ noteIndexOf m ∧ noteIndexOf m < 12 := by
  have main : ∀ l : ℝ, 108 ≤ eigenToFrequency l ∧ 0 < eigenToFrequency l ∧
      45 ≤ freqToMidi (eigenToFrequency l) ∧
      0 ≤ noteIndexOf (freqToMidi (eigenToFrequency l)) ∧
      noteIndexOf (freqToMidi (eigenToFrequency l)) < 12 := by
    intro l
    have hf := eigenToFrequency_lower_bound l
    have hm : 45 ≤ freqToMidi (eigenToFrequency l) := by
      rw [freqToMidi_eigen]
      have := tsem_lower_bound l
      omega
    have hidx := noteIndexOf_bounds (freqToMidi (eigenToFrequency l)) (by omega)
    exact ⟨hf, by linarith, hm, hidx.1, hidx.2⟩
  refine ⟨main, fun ls m hm => ?_⟩
  simp only [chordFromEigen, List.map_map, List.mem_map] at hm
  obtain ⟨l, _, rfl⟩ := hm
  exact ⟨(main l).2.2.1, (main l).2.2.2.1, (main l).2.2.2.2⟩

theorem pipeline_midi_safe_witness :
    45 ≤ freqToMidi (eigenToFrequency (0 : ℝ)) ∧
      0 ≤ noteIndexOf (freqToMidi (eigenToFrequency (0 : ℝ))) ∧
      noteIndexOf (freqToMidi (eigenToFrequency (0 : ℝ))) < 12 :=
  pipeline_midi_safe.2 [0] _ (by simp [chordFromEigen])

/-! ### Lemmas about the colour mapper -/

theorem normalizedOf_one_lt : normalizedOf 1 < -(1 / 2) := by
  have hA : 0 < Real.logb 2 27.5 := Real.logb_pos (by norm_num) (by norm_num)
  have hAB : Real.logb 2 27.5 < Real.logb 2 4186 :=
    Real.logb_lt_logb (by norm_num) (by norm_num) (by norm_num)
  have hpow : Real.logb 2 ((27.5 : ℝ) ^ (3 : ℕ)) = 3 * Real.logb 2 27.5 := by
    rw [Real.logb_pow]
    norm_num
  have h3A : Real.logb 2 4186 < 3 * Real.logb 2 27.5 := by
    rw [← hpow]
    exact Real.logb_lt_logb (by norm_num) (by norm_num) (by norm_num)
  rw [normalizedOf, Real.logb_one]
  rw [div_lt_iff₀ (by linarith)]
  linarith

theorem greenChannel_one_neg : greenChannel [(1 : ℝ)] ≤ -1 := by
  have hn := normalizedOf_one_lt
  have hb : normalizedOf 1 < 0.33 := by linarith
  have hc : contribOf (normalizedOf 1) =
      (255 * (1 - normalizedOf 1 * 3), 255 * (normalizedOf 1 * 3), 0) := by
    rw [contribOf, if_pos hb]
  have hsum : (sumRGB [(1 : ℝ)]).2.1 = 255 * (normalizedOf 1 * 3) + 0 := by
    simp [sumRGB, hc]
  rw [greenChannel, channelOf, hsum]
  have hr : ⌊(255 * (normalizedOf 1 * 3) + 0) / (([(1 : ℝ)].length : ℕ) : ℝ) + 1 / 2⌋ < 0 := by
    refine Int.floor_lt.mpr ?_
    push_cast
    simp only [List.length_cons, List.length_nil]
    push_cast
    nlinarith
  rw [jsRound]
  have := min_le_right (255 : ℤ) ⌊(255 * (normalizedOf 1 * 3) + 0) /
    (([(1 : ℝ)].length : ℕ) : ℝ) + 1 / 2⌋
  omega

theorem intToHexStr_neg_mem (n : ℤ) (h : n < 0) : '-' ∈ (intToHexStr n).data := by
  rw [intToHexStr, if_pos h, String.data_append]
  exact List.mem_append_left _ (by decide)

theorem mem_padTwo (s : String) (c : Char) (h : c ∈ s.data) : c ∈ (padTwo s).data := by
  rw [padTwo]
  by_cases hl : s.length < 2
  · rw [if_pos hl]
    exact List.mem_append_right _ h
  · rw [if_neg hl]
    exact h

theorem freqToColor_one_has_minus : '-' ∈ (freqToColor [(1 : ℝ)]).data := by
  rw [freqToColor, if_neg (by simp)]
  have hg : '-' ∈ (padTwo (intToHexStr (greenChannel [(1 : ℝ)]))).data :=
    mem_padTwo _ _ (intToHexStr_neg_mem _ (by have := greenChannel_one_neg; omega))
  simp only [String.data_append]
  exact List.mem_append_left _ (List.mem_append_right _ hg)

/-- C7: counterexample — the channels are clamped only from above
(`min 255 _`), never from below at 0; for the positive frequency 1 Hz the
normalised log position is below -1/2, the green contribution is negative,
the green channel comes out at most -1, and the emitted string contains a
minus sign, so it is not a well-formed 6-hex-digit colour. -/
theorem freqToColor_clamp_counterexample :
    greenChannel [(1 : ℝ)] ≤ -1 ∧ ¬ wellFormedColor (freqToColor [(1 : ℝ)]) := by
  refine ⟨greenChannel_one_neg, ?_⟩
  rintro ⟨cs, hdata, _, hhex⟩
  have hmem := freqToColor_one_has_minus
  rw [hdata] at hmem
  rcases List.mem_cons.mp hmem with h | h
  · exact absurd h (by decide)
  · exact absurd (hhex _ h) (by decide)

theorem natHexDigits_byte (n : ℕ) (h : n < 256) :
    (natHexDigits n).length ≤ 2 ∧ 1 ≤ (natHexDigits n).length ∧
      ∀ c ∈ natHexDigits n, c ∈ hexDigitChars := by
  have hdig : ∀ k : ℕ, k < 16 → Nat.digitChar k ∈ hexDigitChars := by decide
  by_cases h16 : n < 16
  · rw [natHexDigits, dif_pos h16]
    refine ⟨by simp, by simp, ?_⟩
    intro c hc
    rw [List.mem_singleton] at hc
    subst hc
    exact hdig n h16
  · rw [natHexDigits, dif_neg h16]
    have hq : n / 16 < 16 := by omega
    rw [natHexDigits, dif_pos hq]
    refine ⟨by simp, by simp, ?_⟩
    intro c hc
    simp only [List.cons_append, List.nil_append, List.mem_cons, List.not_mem_nil,
      or_false] at hc
    rcases hc with rfl | rfl
    · exact hdig _ hq
    · exact hdig _ (Nat.mod_lt _ (by omega))

theorem padTwo_hex (s : String) (hge : 1 ≤ s.data.length) (hle : s.data.length ≤ 2)
    (hmem : ∀ c ∈ s.data, c ∈ hexDigitChars) :
    (padTwo s).data.length = 2 ∧ ∀ c ∈ (padTwo s).data, c ∈ hexDigitChars := by
  have hlen : s.length = s.data.length := rfl
  rw [padTwo]
  by_cases hl : s.length < 2
  · rw [if_pos hl]
    constructor
    · show (List.replicate (2 - s.length) '0' ++ s.data).length = 2
      rw [List.length_append, List.length_replicate]
      omega
    · intro c hc
      rcases List.mem_append.mp hc with hc | hc
      · rw [List.eq_of_mem_replicate hc]
        decide
      · exact hmem c hc
  · rw [if_neg hl]
    exact ⟨by omega, hmem⟩

theorem hexByte_block (k : ℤ) (h0 : 0 ≤ k) (h1 : k ≤ 255) :
    (padTwo (intToHexStr k)).data.length = 2 ∧
      ∀ c ∈ (padTwo (intToHexStr k)).data, c ∈ hexDigitChars := by
  rw [intToHexStr, if_neg (not_lt.mpr h0)]
  have hb : k.toNat < 256 := by omega
  obtain ⟨hle, hge, hmem⟩ := natHexDigits_byte k.toNat hb
  exact padTwo_hex _ hge hle hmem

/-- C7 (amended): the empty list yields the black sentinel, each channel is
clamped from above at 255 but not from below at 0, and for every non-empty
frequency list whose three averaged channels come out non-negative the result
is a well-formed 6-hex-digit colour string (with negative channels the string
is malformed, as the counterexample shows). -/
theorem freqToColor_spec :
    freqToColor ([] : List ℝ) = "#000000" ∧
    (∀ fs : List ℝ,
      redChannel fs ≤ 255 ∧ greenChannel fs ≤ 255 ∧ blueChannel fs ≤ 255) ∧
    ∀ fs : List ℝ, fs ≠ [] →
      0 ≤ redChannel fs → 0 ≤ greenChannel fs → 0 ≤ blueChannel fs →
      wellFormedColor (freqToColor fs) := by
  refine ⟨by simp [freqToColor],
    fun fs => ⟨min_le_left _ _, min_le_left _ _, min_le_left _ _⟩,
    fun fs hne hr hg hb => ?_⟩
  have hlen : ¬ fs.length = 0 := fun h => hne (List.length_eq_zero.mp h)
  rw [freqToColor, if_neg hlen]
  obtain ⟨hr2, hrm⟩ := hexByte_block (redChannel fs) hr (min_le_left _ _)
  obtain ⟨hg2, hgm⟩ := hexByte_block (greenChannel fs) hg (min_le_left _ _)
  obtain ⟨hb2, hbm⟩ := hexByte_block (blueChannel fs) hb (min_le_left _ _)
  refine ⟨(padTwo (intToHexStr (redChannel fs))).data ++
    ((padTwo (intToHexStr (greenChannel fs))).data ++
      (padTwo (intToHexStr (blueChannel fs))).data), ?_, ?_, ?_⟩
  · simp [String.data_append, List.append_assoc]
  · rw [List.length_append, List.length_append, hr2, hg2, hb2]
  · intro c hc
    rcases List.mem_append.mp hc with hc | hc
    · exact hrm c hc
    · rcases List.mem_append.mp hc with hc | hc
      · exact hgm c hc
      · exact hbm c hc

theorem normalizedOf_anchor : normalizedOf (27.5 : ℝ) = 0 := by
  rw [normalizedOf, sub_self, zero_div]

theorem channelOf_nonneg (sum : ℝ) (count : ℕ) (h : 0 ≤ sum) : 0 ≤ channelOf sum count := by
  rw [channelOf, jsRound]
  refine le_min (by norm_num) (Int.floor_nonneg.mpr ?_)
  have : (0 : ℝ) ≤ sum / (count : ℝ) := div_nonneg h (Nat.cast_nonneg count)
  linarith

theorem freqToColor_spec_witness :
    ([(27.5 : ℝ)] ≠ ([] : List ℝ)) ∧ wellFormedColor (freqToColor [(27.5 : ℝ)]) := by
  have hc : contribOf (normalizedOf 27.5) = (255, 0, 0) := by
    rw [normalizedOf_anchor, contribOf, if_pos (by norm_num : (0 : ℝ) < 0.33)]
    norm_num
  have hs : sumRGB [(27.5 : ℝ)] = (255, 0, 0) := by
    simp [sumRGB, hc]
  have hr : 0 ≤ redChannel [(27.5 : ℝ)] := by
    rw [redChannel, hs]
    exact channelOf_nonneg _ _ (by norm_num)
  have hg : 0 ≤ greenChannel [(27.5 : ℝ)] := by
    rw [greenChannel, hs]
    exact channelOf_nonneg _ _ (by norm_num)
  have hb : 0 ≤ blueChannel [(27.5 : ℝ)] := by
    rw [blueChannel, hs]
    exact channelOf_nonneg _ _ (by norm_num)
  exact ⟨by simp, freqToColor_spec.2.2 [(27.5 : ℝ)] (by simp) hr hg hb⟩

end CodeSymphony
